import Mathlib

/-!
Verification of the cursor-honcho core against its specification.

The definitions below are a shallow embedding of the TypeScript source:
strings are modelled as `List Char` (JS string indexing is positional), JS
numbers that hold integers as `Int`/`Nat`, `undefined`/absent fields as
`Option`, and on-disk JSON state as explicit values threaded through the
functions.  Each definition mirrors one function of the source
(`src/plugins/honcho/src/pixel.ts` and the config module).
-/

namespace CursorHoncho

/-! ## Chunker (`chunkContent` in pixel.ts)

The splitting loop of `chunkContent` is embedded with an explicit fuel
argument (the loop has no structural decrease when `maxSize = 0`, where the
JS loop itself diverges); `chunkLoop_fuel_irrel` shows the fuel is
irrelevant from `content.length` up whenever `maxSize ≥ 1`. -/

/-- Whitespace test backing JS `trimStart`. -/
def isWs (c : Char) : Bool := c.isWhitespace

/-- JS `s.lastIndexOf(c, fromIdx)`: the largest index `i ≤ fromIdx` with
`s[i] = c`, and `-1` when there is none. -/
def lastIndexOfLe (c : Char) (s : List Char) (fromIdx : Nat) : Int :=
  match ((List.range (min (fromIdx + 1) s.length)).filter
      (fun i => s.get? i == some c)).getLast? with
  | some i => (i : Int)
  | none => -1

/-- The split-index selection of `chunkContent`: last newline at or before
`maxSize`, else last space, else a hard cut at `maxSize`.  The JS guard
`splitIndex <= 0 || splitIndex < maxSize * 0.25` is rendered as
`s ≤ 0 ∨ 4 * s < maxSize`, which agrees with the float comparison on
integer indices. -/
def chooseSplit (maxSize : Nat) (rem : List Char) : Nat :=
  let s1 : Int := lastIndexOfLe '\n' rem maxSize
  let s2 : Int :=
    if s1 ≤ 0 ∨ 4 * s1 < (maxSize : Int) then lastIndexOfLe ' ' rem maxSize else s1
  if s2 ≤ 0 ∨ 4 * s2 < (maxSize : Int) then maxSize else s2.toNat

/-- The `while (remaining.length > 0)` loop of `chunkContent`. -/
def chunkLoop (maxSize : Nat) : Nat → List Char → List (List Char)
  | _, [] => []
  | 0, _ :: _ => []
  | fuel + 1, x :: xs =>
    if (x :: xs).length ≤ maxSize then [x :: xs]
    else
      (x :: xs).take (chooseSplit maxSize (x :: xs)) ::
        chunkLoop maxSize fuel
          (((x :: xs).drop (chooseSplit maxSize (x :: xs))).dropWhile isWs)

/-- The marker `[Part i/N] ` prepended to each chunk when more than one chunk
is produced. -/
def partMarker (i n : Nat) : List Char :=
  ("[Part " ++ Nat.repr i ++ "/" ++ Nat.repr n ++ "] ").data

/-- `chunkContent(content, maxSize)` from pixel.ts. -/
def chunkContent (content : List Char) (maxSize : Nat) : List (List Char) :=
  if content.length ≤ maxSize then [content]
  else if 1 < (chunkLoop maxSize content.length content).length then
    (chunkLoop maxSize content.length content).mapIdx
      (fun i c => partMarker (i + 1) (chunkLoop maxSize content.length content).length ++ c)
  else chunkLoop maxSize content.length content

/-- Removes the `[Part i/N] ` marker from each chunk (markers are present
exactly when more than one chunk was produced). -/
def stripMarkers (chunks : List (List Char)) : List (List Char) :=
  if 1 < chunks.length then
    chunks.mapIdx (fun i c => c.drop (partMarker (i + 1) chunks.length).length)
  else chunks

theorem chooseSplit_pos (maxSize : Nat) (rem : List Char) (hm : 1 ≤ maxSize) :
    1 ≤ chooseSplit maxSize rem := by
  simp only [chooseSplit]
  split <;> (try split) <;> omega

theorem chunkLoop_reassembly (maxSize : Nat) (hm : 1 ≤ maxSize) :
    ∀ (fuel : Nat) (rem : List Char), rem.length ≤ fuel →
      ∃ ws : List (List Char),
        ws.length = (chunkLoop maxSize fuel rem).length ∧
        (∀ w ∈ ws, ∀ c ∈ w, isWs c = true) ∧
        (List.zipWith (fun a b => a ++ b) (chunkLoop maxSize fuel rem) ws).flatten = rem := by
  intro fuel
  induction fuel with
  | zero =>
    intro rem h
    have hnil : rem = [] := List.length_eq_zero.mp (Nat.le_zero.mp h)
    subst hnil
    exact ⟨[], by simp [chunkLoop]⟩
  | succ fuel ih =>
    intro rem h
    match rem with
    | [] => exact ⟨[], by simp [chunkLoop]⟩
    | x :: xs =>
      by_cases hle : xs.length + 1 ≤ maxSize
      · refine ⟨[[]], ?_, ?_, ?_⟩
        · simp [chunkLoop, hle]
        · intro w hw c hc
          simp only [List.mem_singleton] at hw
          subst hw
          simp at hc
        · simp [chunkLoop, hle]
      · have hsi : 1 ≤ chooseSplit maxSize (x :: xs) := chooseSplit_pos maxSize (x :: xs) hm
        have hlen : ((((x :: xs).drop (chooseSplit maxSize (x :: xs))).dropWhile isWs)).length ≤ fuel := by
          have hsub := (List.dropWhile_sublist (l := (x :: xs).drop (chooseSplit maxSize (x :: xs)))
            isWs).length_le
          have hdrop : ((x :: xs).drop (chooseSplit maxSize (x :: xs))).length
              = (x :: xs).length - chooseSplit maxSize (x :: xs) := List.length_drop _ _
          simp only [List.length_cons] at h hdrop
          omega
        obtain ⟨ws, hws1, hws2, hws3⟩ :=
          ih (((x :: xs).drop (chooseSplit maxSize (x :: xs))).dropWhile isWs) hlen
        refine ⟨((x :: xs).drop (chooseSplit maxSize (x :: xs))).takeWhile isWs :: ws, ?_, ?_, ?_⟩
        · simp [chunkLoop, hle, hws1]
        · intro w hw c hc
          rcases List.mem_cons.mp hw with hw | hw
          · subst hw
            exact List.mem_takeWhile_imp hc
          · exact hws2 w hw c hc
        · have hunfold : chunkLoop maxSize (fuel + 1) (x :: xs) =
              (x :: xs).take (chooseSplit maxSize (x :: xs)) ::
                chunkLoop maxSize fuel
                  (((x :: xs).drop (chooseSplit maxSize (x :: xs))).dropWhile isWs) := by
            simp [chunkLoop, hle]
          rw [hunfold]
          simp only [List.zipWith_cons_cons, List.flatten_cons]
          rw [hws3, List.append_assoc, List.takeWhile_append_dropWhile, List.take_append_drop]

theorem mapIdx_marker_strip {α : Type} (m : Nat → List α) (l : List (List α)) :
    ((l.mapIdx fun i c => m i ++ c).mapIdx fun i c => c.drop (m i).length) = l := by
  apply List.ext_get
  · simp [List.length_mapIdx]
  · intro i h1 h2
    have hi : i < (l.mapIdx fun i c => m i ++ c).length := by
      simpa [List.length_mapIdx] using h2
    rw [List.get_mapIdx _ _ i hi, List.get_mapIdx _ _ i h2]
    exact List.drop_left _ _

theorem stripMarkers_chunkContent (content : List Char) (maxSize : Nat)
    (h : maxSize < content.length) :
    stripMarkers (chunkContent content maxSize) = chunkLoop maxSize content.length content := by
  have hnle : ¬ content.length ≤ maxSize := by omega
  unfold chunkContent
  rw [if_neg hnle]
  by_cases hgt : 1 < (chunkLoop maxSize content.length content).length
  · rw [if_pos hgt]
    unfold stripMarkers
    rw [if_pos (by simpa [List.length_mapIdx] using hgt)]
    have hlenmap : ((chunkLoop maxSize content.length content).mapIdx
        (fun i c => partMarker (i + 1) (chunkLoop maxSize content.length content).length ++ c)).length
        = (chunkLoop maxSize content.length content).length := List.length_mapIdx
    rw [hlenmap]
    exact mapIdx_marker_strip _ _
  · rw [if_neg hgt]
    unfold stripMarkers
    rw [if_neg hgt]

/-- C2: for text longer than `maxSize` (with `maxSize ≥ 1`), the chunks of
`chunkContent`, once the `[Part i/N] ` markers are stripped, concatenate back
to the original text up to whitespace runs removed exactly at the chosen
split boundaries: interleaving each chunk body with the whitespace dropped
after it reproduces the text, so no non-whitespace character is lost,
duplicated or reordered. -/
theorem chunkContent_reassembly (content : List Char) (maxSize : Nat)
    (h1 : 1 ≤ maxSize) (h2 : maxSize < content.length) :
    ∃ ws : List (List Char),
      ws.length = (stripMarkers (chunkContent content maxSize)).length ∧
      (∀ w ∈ ws, ∀ c ∈ w, isWs c = true) ∧
      (List.zipWith (fun a b => a ++ b) (stripMarkers (chunkContent content maxSize)) ws).flatten
        = content := by
  have hlen : (stripMarkers (chunkContent content maxSize)).length
      = (chunkLoop maxSize content.length content).length := by
    rw [stripMarkers_chunkContent content maxSize h2]
  rw [stripMarkers_chunkContent content maxSize h2]
  exact chunkLoop_reassembly maxSize h1 content.length content (le_refl _)

/-- Closed instance of `chunkContent_reassembly` at a concrete input. -/
theorem chunkContent_reassembly_witness :
    ∃ ws : List (List Char),
      ws.length = (stripMarkers (chunkContent ("hello world hello".data) 8)).length ∧
      (∀ w ∈ ws, ∀ c ∈ w, isWs c = true) ∧
      (List.zipWith (fun a b => a ++ b) (stripMarkers (chunkContent ("hello world hello".data) 8)) ws).flatten
        = "hello world hello".data :=
  chunkContent_reassembly ("hello world hello".data) 8 (by decide) (by decide)

theorem chunkLoop_ne_nil (maxSize : Nat) (fuel : Nat) (rem : List Char)
    (h0 : rem ≠ []) (h : rem.length ≤ fuel) : chunkLoop maxSize fuel rem ≠ [] := by
  match fuel, rem with
  | _, [] => exact absurd rfl h0
  | 0, x :: xs => simp at h
  | fuel + 1, x :: xs =>
    by_cases hle : xs.length + 1 ≤ maxSize <;> simp [chunkLoop, hle]

theorem chunkLoop_mem_ne_nil (maxSize : Nat) (hm : 1 ≤ maxSize) :
    ∀ (fuel : Nat) (rem : List Char), ∀ c ∈ chunkLoop maxSize fuel rem, c ≠ [] := by
  intro fuel
  induction fuel with
  | zero =>
    intro rem c hc
    cases rem <;> simp [chunkLoop] at hc
  | succ fuel ih =>
    intro rem c hc
    match rem with
    | [] => simp [chunkLoop] at hc
    | x :: xs =>
      by_cases hle : xs.length + 1 ≤ maxSize
      · simp [chunkLoop, hle] at hc
        subst hc
        simp
      · simp [chunkLoop, hle, List.mem_cons] at hc
        rcases hc with hc | hc
        · subst hc
          have hsi := chooseSplit_pos maxSize (x :: xs) hm
          cases hsplit : chooseSplit maxSize (x :: xs) with
          | zero => omega
          | succ n => simp
        · exact ih _ c hc

theorem chunkLoop_fuel_irrel (maxSize : Nat) (hm : 1 ≤ maxSize) :
    ∀ (fuel₁ fuel₂ : Nat) (rem : List Char), rem.length ≤ fuel₁ → rem.length ≤ fuel₂ →
      chunkLoop maxSize fuel₁ rem = chunkLoop maxSize fuel₂ rem := by
  intro fuel₁
  induction fuel₁ with
  | zero =>
    intro fuel₂ rem h1 h2
    have hnil : rem = [] := List.length_eq_zero.mp (Nat.le_zero.mp h1)
    subst hnil
    cases fuel₂ <;> simp [chunkLoop]
  | succ f ih =>
    intro fuel₂ rem h1 h2
    match rem with
    | [] => cases fuel₂ <;> simp [chunkLoop]
    | x :: xs =>
      match fuel₂ with
      | 0 => simp at h2
      | f2 + 1 =>
        by_cases hle : xs.length + 1 ≤ maxSize
        · simp [chunkLoop, hle]
        · simp only [chunkLoop, List.length_cons, if_neg hle]
          congr 1
          have hsi := chooseSplit_pos maxSize (x :: xs) hm
          have hsub := (List.dropWhile_sublist (l := (x :: xs).drop (chooseSplit maxSize (x :: xs)))
            isWs).length_le
          have hdrop : ((x :: xs).drop (chooseSplit maxSize (x :: xs))).length
              = (x :: xs).length - chooseSplit maxSize (x :: xs) := List.length_drop _ _
          apply ih
          · simp only [List.length_cons] at h1 hdrop
            omega
          · simp only [List.length_cons] at h2 hdrop
            omega

theorem mem_mapIdx_ex {α β : Type} (f : Nat → α → β) (l : List α) (b : β)
    (hb : b ∈ l.mapIdx f) : ∃ i a, a ∈ l ∧ b = f i a := by
  rw [List.mapIdx_eq_ofFn] at hb
  obtain ⟨i, hi⟩ := (List.mem_ofFn _ _).mp hb
  exact ⟨(i : Nat), l.get i, l.get_mem _ _, hi.symm⟩

theorem partMarker_ne_nil (i n : Nat) : partMarker i n ≠ [] := by
  unfold partMarker
  rw [String.data_append]
  intro h
  rw [List.append_eq_nil] at h
  exact absurd h.2 (by decide)

/-- C3: for non-empty text and `maxSize ≥ 1`, `chunkContent` terminates on a
finite, non-empty chunk list all of whose chunks are non-empty; the last
conjunct states the loop's forward progress, as the fuel embedding of the
`while` loop computes the same list from any fuel at least `content.length`. -/
theorem chunkContent_nonempty (content : List Char) (maxSize : Nat)
    (h1 : content ≠ []) (h2 : 1 ≤ maxSize) :
    chunkContent content maxSize ≠ [] ∧
    (∀ c ∈ chunkContent content maxSize, c ≠ []) ∧
    (∀ fuel : Nat, content.length ≤ fuel →
      chunkLoop maxSize fuel content = chunkLoop maxSize content.length content) := by
  refine ⟨?_, ?_, ?_⟩
  · unfold chunkContent
    by_cases hle : content.length ≤ maxSize
    · simp [hle]
    · rw [if_neg hle]
      have hcl : chunkLoop maxSize content.length content ≠ [] :=
        chunkLoop_ne_nil maxSize content.length content h1 (le_refl _)
      by_cases hgt : 1 < (chunkLoop maxSize content.length content).length
      · rw [if_pos hgt]
        intro hx
        have h0 : (chunkLoop maxSize content.length content).length = 0 := by
          have := congrArg List.length hx
          simpa [List.length_mapIdx] using this
        exact hcl (List.length_eq_zero.mp h0)
      · rw [if_neg hgt]
        exact hcl
  · intro c hc
    unfold chunkContent at hc
    by_cases hle : content.length ≤ maxSize
    · rw [if_pos hle] at hc
      simp only [List.mem_singleton] at hc
      subst hc
      exact h1
    · rw [if_neg hle] at hc
      by_cases hgt : 1 < (chunkLoop maxSize content.length content).length
      · rw [if_pos hgt] at hc
        obtain ⟨i, a, _, rfl⟩ := mem_mapIdx_ex _ _ _ hc
        intro hx
        rw [List.append_eq_nil] at hx
        exact partMarker_ne_nil _ _ hx.1
      · rw [if_neg hgt] at hc
        exact chunkLoop_mem_ne_nil maxSize h2 _ _ c hc
  · intro fuel hf
    exact chunkLoop_fuel_irrel maxSize h2 fuel content.length content hf (le_refl _)

/-- Closed instance of `chunkContent_nonempty` at a concrete input. -/
theorem chunkContent_nonempty_witness :
    chunkContent ("ab".data) 1 ≠ [] ∧
    (∀ c ∈ chunkContent ("ab".data) 1, c ≠ []) ∧
    (∀ fuel : Nat, ("ab".data).length ≤ fuel →
      chunkLoop 1 fuel ("ab".data) = chunkLoop 1 ("ab".data).length ("ab".data)) :=
  chunkContent_nonempty ("ab".data) 1 (by decide) (by decide)

/-! ## Config Resolver (config module)

`process.env` is reified as an `Env` value, the on-disk `config.json` as a
`HonchoFileConfig` (absent JSON fields are `none`; the `hosts` object is a
finite map modelled as a total function to `Option`, with the absent object
equal to the empty map, which `resolveConfig` and `saveConfig` cannot
distinguish).  JS string truthiness (`""` is falsy) backs `||` chains. -/

/-- JS truthiness of a possibly-undefined string. -/
def truthy : Option String → Bool
  | none => false
  | some s => !s.isEmpty

/-- JS `a || b` on possibly-undefined strings. -/
def jsOr (a b : Option String) : Option String := if truthy a then a else b

/-- JS `a || d` where `d` is a present string. -/
def jsOrD (a : Option String) (d : String) : String := if truthy a then a.getD d else d

structure MessageUploadConfig where
  maxUserTokens : Option Int := none
  maxAssistantTokens : Option Int := none
  summarizeAssistant : Option Bool := none
deriving DecidableEq

structure ContextRefreshConfig where
  messageThreshold : Option Int := none
  ttlSeconds : Option Int := none
  skipDialectic : Option Bool := none
deriving DecidableEq

structure LocalContextConfig where
  maxEntries : Option Int := none
deriving DecidableEq

/-- `HonchoEndpointConfig`; the `environment` union string is kept as its
JSON string value. -/
structure HonchoEndpointConfig where
  environment : Option String := none
  baseUrl : Option String := none
deriving DecidableEq

inductive HonchoHost
  | cursor
  | claudeCode
deriving DecidableEq

/-- The host id string of each `HonchoHost` union member. -/
def hostKey : HonchoHost → String
  | .cursor => "cursor"
  | .claudeCode => "claude-code"

structure HostConfig where
  workspace : Option String := none
  aiPeer : Option String := none
deriving DecidableEq

def DEFAULT_WORKSPACE : HonchoHost → String
  | .cursor => "cursor"
  | .claudeCode => "claude_code"

/-- Raw shape of `~/.honcho/config.json` on disk. -/
structure HonchoFileConfig where
  apiKey : Option String := none
  peerName : Option String := none
  workspace : Option String := none
  sessions : Option (List (String × String)) := none
  saveMessages : Option Bool := none
  messageUpload : Option MessageUploadConfig := none
  contextRefresh : Option ContextRefreshConfig := none
  endpoint : Option HonchoEndpointConfig := none
  localContext : Option LocalContextConfig := none
  enabled : Option Bool := none
  logging : Option Bool := none
  hosts : String → Option HostConfig := fun _ => none
  cursorPeer : Option String := none
  claudePeer : Option String := none

/-- Resolved runtime config consumed by all other code. -/
structure HonchoCursorConfig where
  peerName : String
  apiKey : String
  workspace : String
  aiPeer : String
  sessions : Option (List (String × String)) := none
  saveMessages : Option Bool := none
  messageUpload : Option MessageUploadConfig := none
  contextRefresh : Option ContextRefreshConfig := none
  endpoint : Option HonchoEndpointConfig := none
  localContext : Option LocalContextConfig := none
  enabled : Option Bool := none
  logging : Option Bool := none
deriving DecidableEq

/-- The environment variables the config module reads. -/
structure Env where
  HONCHO_API_KEY : Option String := none
  HONCHO_PEER_NAME : Option String := none
  USER : Option String := none
  HONCHO_WORKSPACE : Option String := none
  HONCHO_AI_PEER : Option String := none
  HONCHO_CURSOR_PEER : Option String := none
  HONCHO_CLAUDE_PEER : Option String := none
  HONCHO_ENDPOINT : Option String := none
  HONCHO_SAVE_MESSAGES : Option String := none
  HONCHO_ENABLED : Option String := none
  HONCHO_LOGGING : Option String := none

/-- `mergeWithEnvVars(config)`: environment variables override file values. -/
def mergeWithEnvVars (env : Env) (config : HonchoCursorConfig) : HonchoCursorConfig :=
  let c1 := if truthy env.HONCHO_API_KEY
    then { config with apiKey := env.HONCHO_API_KEY.getD "" } else config
  let c2 := if truthy env.HONCHO_WORKSPACE
    then { c1 with workspace := env.HONCHO_WORKSPACE.getD "" } else c1
  let c3 := if truthy env.HONCHO_PEER_NAME
    then { c2 with peerName := env.HONCHO_PEER_NAME.getD "" } else c2
  let c4 := if truthy env.HONCHO_AI_PEER
    then { c3 with aiPeer := env.HONCHO_AI_PEER.getD "" } else c3
  let c5 := if env.HONCHO_ENABLED = some "false" then { c4 with enabled := some false } else c4
  if env.HONCHO_LOGGING = some "false" then { c5 with logging := some false } else c5

/-- `resolveConfig(raw, host)`: per-host fields come from the `hosts` block
when one exists for the host (missing fields fall to the built-in defaults),
and from the legacy flat fields only when it does not. -/
def resolveConfig (env : Env) (raw : HonchoFileConfig) (host : HonchoHost) :
    Option HonchoCursorConfig :=
  let apiKeyO := jsOr env.HONCHO_API_KEY raw.apiKey
  if truthy apiKeyO then
    let peerName := jsOrD raw.peerName (jsOrD env.HONCHO_PEER_NAME (jsOrD env.USER "user"))
    let pair : String × String :=
      match raw.hosts (hostKey host) with
      | some hb => (hb.workspace.getD (DEFAULT_WORKSPACE host), hb.aiPeer.getD (hostKey host))
      | none =>
        (raw.workspace.getD (DEFAULT_WORKSPACE host),
          match host with
          | .cursor => raw.cursorPeer.getD "cursor"
          | .claudeCode => raw.claudePeer.getD "clawd")
    some (mergeWithEnvVars env
      { apiKey := apiKeyO.getD ""
        peerName := peerName
        workspace := pair.1
        aiPeer := pair.2
        sessions := raw.sessions
        saveMessages := raw.saveMessages
        messageUpload := raw.messageUpload
        contextRefresh := raw.contextRefresh
        endpoint := raw.endpoint
        localContext := raw.localContext
        enabled := raw.enabled
        logging := raw.logging })
  else none

/-- `loadConfigFromEnv(host)`: environment-only configuration. -/
def loadConfigFromEnv (env : Env) (host : HonchoHost) : Option HonchoCursorConfig :=
  if truthy env.HONCHO_API_KEY then
    some
      { apiKey := env.HONCHO_API_KEY.getD ""
        peerName := jsOrD env.HONCHO_PEER_NAME (jsOrD env.USER "user")
        workspace := jsOrD env.HONCHO_WORKSPACE (DEFAULT_WORKSPACE host)
        aiPeer := jsOrD env.HONCHO_AI_PEER
          (jsOrD env.HONCHO_CURSOR_PEER (jsOrD env.HONCHO_CLAUDE_PEER (hostKey host)))
        saveMessages := some (env.HONCHO_SAVE_MESSAGES ≠ some "false")
        enabled := some (env.HONCHO_ENABLED ≠ some "false")
        logging := some (env.HONCHO_LOGGING ≠ some "false")
        endpoint :=
          if truthy env.HONCHO_ENDPOINT then
            if env.HONCHO_ENDPOINT.getD "" = "local" then
              some { environment := some "local" }
            else if (env.HONCHO_ENDPOINT.getD "").startsWith "http" then
              some { baseUrl := env.HONCHO_ENDPOINT }
            else none
          else none }
  else none

/-- State of the persisted config file as `loadConfig`/`saveConfig` see it. -/
inductive FileState
  | absent
  | corrupt
  | present (raw : HonchoFileConfig)

/-- `loadConfig(host)`: a present, parseable file goes through
`resolveConfig`; an absent or corrupt file falls back to the
environment-only configuration. -/
def loadConfig (env : Env) (file : FileState) (host : HonchoHost) : Option HonchoCursorConfig :=
  match file with
  | .present raw => resolveConfig env raw host
  | .absent => loadConfigFromEnv env host
  | .corrupt => loadConfigFromEnv env host

/-- `saveConfig(config)`: read-merge-write of the config file.  Shared fields
are overwritten, the per-host block is written only for the detected host,
and the legacy flat fields are deleted. -/
def saveConfig (file : FileState) (config : HonchoCursorConfig) (host : HonchoHost) :
    HonchoFileConfig :=
  let existing : HonchoFileConfig := match file with
    | .present raw => raw
    | _ => {}
  { existing with
    apiKey := some config.apiKey
    peerName := some config.peerName
    sessions := config.sessions
    saveMessages := config.saveMessages
    messageUpload := config.messageUpload
    contextRefresh := config.contextRefresh
    endpoint := config.endpoint
    localContext := config.localContext
    enabled := config.enabled
    logging := config.logging
    hosts := fun k =>
      if k = hostKey host then
        some { workspace := some config.workspace, aiPeer := some config.aiPeer }
      else existing.hosts k
    workspace := none
    cursorPeer := none
    claudePeer := none }

/-- `getContextRefreshConfig()`, parametrised by the `loadConfig` result. -/
def getContextRefreshConfig (config : Option HonchoCursorConfig) : ContextRefreshConfig :=
  { messageThreshold :=
      some (((config.bind HonchoCursorConfig.contextRefresh).bind
        ContextRefreshConfig.messageThreshold).getD 30)
    ttlSeconds :=
      some (((config.bind HonchoCursorConfig.contextRefresh).bind
        ContextRefreshConfig.ttlSeconds).getD 300)
    skipDialectic :=
      some (((config.bind HonchoCursorConfig.contextRefresh).bind
        ContextRefreshConfig.skipDialectic).getD false) }

/-- `getMessageRefreshThreshold()` from pixel.ts. -/
def getMessageRefreshThreshold (config : Option HonchoCursorConfig) : Int :=
  (getContextRefreshConfig config).messageThreshold.getD 50

/-- `getContextTTL()` from pixel.ts, in milliseconds. -/
def getContextTTL (config : Option HonchoCursorConfig) : Int :=
  ((getContextRefreshConfig config).ttlSeconds.getD 300) * 1000

/-- The legacy-branch `aiPeer` fallback of `resolveConfig`
(`cursorPeer ?? "cursor"` / `claudePeer ?? "clawd"`). -/
def legacyAiPeer (raw : HonchoFileConfig) : HonchoHost → String
  | .cursor => raw.cursorPeer.getD "cursor"
  | .claudeCode => raw.claudePeer.getD "clawd"

theorem mergeWithEnvVars_workspace (env : Env) (c : HonchoCursorConfig) :
    (mergeWithEnvVars env c).workspace =
      if truthy env.HONCHO_WORKSPACE then env.HONCHO_WORKSPACE.getD "" else c.workspace := by
  unfold mergeWithEnvVars
  by_cases hA : truthy env.HONCHO_API_KEY = true <;>
    by_cases hW : truthy env.HONCHO_WORKSPACE = true <;>
      by_cases hP : truthy env.HONCHO_PEER_NAME = true <;>
        by_cases hI : truthy env.HONCHO_AI_PEER = true <;>
          by_cases hE : env.HONCHO_ENABLED = some "false" <;>
            by_cases hL : env.HONCHO_LOGGING = some "false" <;>
              simp [hA, hW, hP, hI, hE, hL]

theorem mergeWithEnvVars_aiPeer (env : Env) (c : HonchoCursorConfig) :
    (mergeWithEnvVars env c).aiPeer =
      if truthy env.HONCHO_AI_PEER then env.HONCHO_AI_PEER.getD "" else c.aiPeer := by
  unfold mergeWithEnvVars
  by_cases hA : truthy env.HONCHO_API_KEY = true <;>
    by_cases hW : truthy env.HONCHO_WORKSPACE = true <;>
      by_cases hP : truthy env.HONCHO_PEER_NAME = true <;>
        by_cases hI : truthy env.HONCHO_AI_PEER = true <;>
          by_cases hE : env.HONCHO_ENABLED = some "false" <;>
            by_cases hL : env.HONCHO_LOGGING = some "false" <;>
              simp [hA, hW, hP, hI, hE, hL]

/-- C4 (amended): when the config file is present, `loadConfig` resolves
`workspace` and `aiPeer` with priority environment variable, then the
`hosts[h]` block when one exists, then the built-in default; the legacy flat
fields (`workspace`, `cursorPeer`, `claudePeer`) are consulted only when no
`hosts[h]` block exists at all, and in the hosts branch the `aiPeer` default
is the host id rather than the legacy branch's `"cursor"`/`"clawd"`. -/
theorem loadConfig_field_resolution (env : Env) (raw : HonchoFileConfig) (host : HonchoHost)
    (cfg : HonchoCursorConfig) (h : loadConfig env (.present raw) host = some cfg) :
    cfg.workspace = (if truthy env.HONCHO_WORKSPACE then env.HONCHO_WORKSPACE.getD ""
      else match raw.hosts (hostKey host) with
        | some hb => hb.workspace.getD (DEFAULT_WORKSPACE host)
        | none => raw.workspace.getD (DEFAULT_WORKSPACE host)) ∧
    cfg.aiPeer = (if truthy env.HONCHO_AI_PEER then env.HONCHO_AI_PEER.getD ""
      else match raw.hosts (hostKey host) with
        | some hb => hb.aiPeer.getD (hostKey host)
        | none => legacyAiPeer raw host) := by
  simp only [loadConfig, resolveConfig] at h
  by_cases hk : truthy (jsOr env.HONCHO_API_KEY raw.apiKey) = true
  · rw [if_pos hk] at h
    have hcfg := Option.some.inj h
    clear h
    subst hcfg
    rw [mergeWithEnvVars_workspace, mergeWithEnvVars_aiPeer]
    constructor
    · cases hh : raw.hosts (hostKey host) <;> cases host <;> simp [hh]
    · cases hh : raw.hosts (hostKey host) <;> cases host <;> simp [hh, legacyAiPeer]
  · rw [if_neg hk] at h
    exact absurd h (by simp)

/-- Concrete file used to exercise the legacy-field resolution of
`loadConfig`: a `hosts.cursor` block exists but omits `workspace`, while the
legacy flat `workspace` field is set. -/
def c4raw : HonchoFileConfig :=
  { apiKey := some "k"
    workspace := some "legacyws"
    hosts := fun k => if k = "cursor" then some {} else none }

/-- Empty environment for the config counterexamples. -/
def c4env : Env := {}

/-- The configuration `loadConfig` resolves from `c4raw`. -/
def c4cfg : HonchoCursorConfig :=
  { apiKey := "k", peerName := "user", workspace := "cursor", aiPeer := "cursor" }

/-- C4 (counterexample): with a `hosts.cursor` block present but omitting
`workspace`, `loadConfig` resolves `workspace` to the built-in default
`"cursor"` and not to the legacy flat field `"legacyws"`, contradicting the
claim that the legacy flat field is consulted before the built-in default. -/
theorem loadConfig_skips_legacy_under_host_block :
    (loadConfig c4env (.present c4raw) .cursor).map HonchoCursorConfig.workspace
      = some "cursor" ∧
    (loadConfig c4env (.present c4raw) .cursor).map HonchoCursorConfig.workspace
      ≠ some "legacyws" := by
  constructor
  · decide
  · decide

/-- Closed instance of `loadConfig_field_resolution` at a concrete input. -/
theorem loadConfig_field_resolution_witness :
    c4cfg.workspace = (if truthy c4env.HONCHO_WORKSPACE then c4env.HONCHO_WORKSPACE.getD ""
      else match c4raw.hosts (hostKey .cursor) with
        | some hb => hb.workspace.getD (DEFAULT_WORKSPACE .cursor)
        | none => c4raw.workspace.getD (DEFAULT_WORKSPACE .cursor)) ∧
    c4cfg.aiPeer = (if truthy c4env.HONCHO_AI_PEER then c4env.HONCHO_AI_PEER.getD ""
      else match c4raw.hosts (hostKey .cursor) with
        | some hb => hb.aiPeer.getD (hostKey .cursor)
        | none => legacyAiPeer c4raw .cursor) :=
  loadConfig_field_resolution c4env c4raw .cursor c4cfg (by decide)

theorem hostKey_injective (h1 h2 : HonchoHost) (h : h1 ≠ h2) : hostKey h1 ≠ hostKey h2 := by
  cases h1 <;> cases h2 <;> simp_all [hostKey]

/-- C5: `saveConfig` rewrites only the detected host's block (plus the shared
fields): every other key of `hosts` is carried over from the existing file,
and saving for one host and then for another leaves both host blocks present
with their saved `workspace`/`aiPeer` values, intact and distinct. -/
theorem saveConfig_preserves_other_hosts (raw : HonchoFileConfig)
    (c1 c2 : HonchoCursorConfig) (h1 h2 : HonchoHost) (hne : h1 ≠ h2) :
    (∀ k : String, k ≠ hostKey h1 →
      (saveConfig (.present raw) c1 h1).hosts k = raw.hosts k) ∧
    (saveConfig (.present (saveConfig (.present raw) c1 h1)) c2 h2).hosts (hostKey h1)
      = some { workspace := some c1.workspace, aiPeer := some c1.aiPeer } ∧
    (saveConfig (.present (saveConfig (.present raw) c1 h1)) c2 h2).hosts (hostKey h2)
      = some { workspace := some c2.workspace, aiPeer := some c2.aiPeer } := by
  have hkk : hostKey h1 ≠ hostKey h2 := hostKey_injective h1 h2 hne
  refine ⟨?_, ?_, ?_⟩
  · intro k hk
    simp [saveConfig, hk]
  · simp [saveConfig, hkk]
  · simp [saveConfig]

/-- Configuration saved first, for the cursor host. -/
def c5c1 : HonchoCursorConfig :=
  { apiKey := "k", peerName := "p", workspace := "w1", aiPeer := "a1" }

/-- Configuration saved second, for the claude-code host. -/
def c5c2 : HonchoCursorConfig :=
  { apiKey := "k", peerName := "p", workspace := "w2", aiPeer := "a2" }

/-- Closed instance of `saveConfig_preserves_other_hosts` at a concrete
input. -/
theorem saveConfig_preserves_other_hosts_witness :
    (∀ k : String, k ≠ hostKey .cursor →
      (saveConfig (.present {}) c5c1 .cursor).hosts k = ({} : HonchoFileConfig).hosts k) ∧
    (saveConfig (.present (saveConfig (.present {}) c5c1 .cursor)) c5c2 .claudeCode).hosts
        (hostKey .cursor)
      = some { workspace := some c5c1.workspace, aiPeer := some c5c1.aiPeer } ∧
    (saveConfig (.present (saveConfig (.present {}) c5c1 .cursor)) c5c2 .claudeCode).hosts
        (hostKey .claudeCode)
      = some { workspace := some c5c2.workspace, aiPeer := some c5c2.aiPeer } :=
  saveConfig_preserves_other_hosts {} c5c1 c5c2 .cursor .claudeCode (by decide)

/-- C10: `getContextRefreshConfig` always fills `messageThreshold` with its
default of 30, so `getMessageRefreshThreshold` equals the configured value
with default 30 and its own `?? 50` fallback is unreachable; in particular a
configuration that does not set `contextRefresh.messageThreshold` yields
exactly 30. -/
theorem getMessageRefreshThreshold_default (config : Option HonchoCursorConfig) :
    getMessageRefreshThreshold config
      = ((config.bind HonchoCursorConfig.contextRefresh).bind
          ContextRefreshConfig.messageThreshold).getD 30 ∧
    (((config.bind HonchoCursorConfig.contextRefresh).bind
        ContextRefreshConfig.messageThreshold) = none →
      getMessageRefreshThreshold config = 30) := by
  constructor
  · rfl
  · intro h
    simp [getMessageRefreshThreshold, getContextRefreshConfig, h]

/-! ## Context Cache (pixel.ts)

`context-cache.json` is reified as a `ContextCache` value; `Date.now()` is
passed explicitly as `now`, and the `loadConfig` result consumed by
`getContextRefreshConfig` as `config`.  The cached `data` payload is JS
`any`, modelled by a type parameter. -/

structure CtxEntry (α : Type) where
  data : α
  fetchedAt : Int
deriving DecidableEq

structure ContextCache (α : Type) where
  userContext : Option (CtxEntry α) := none
  claudeContext : Option (CtxEntry α) := none
  messageCount : Option Int := none
  lastRefreshMessageCount : Option Int := none
deriving DecidableEq

/-- `getCachedUserContext()` from pixel.ts: returns the cached payload when
the entry exists and `now - fetchedAt < getContextTTL()`. -/
def getCachedUserContext {α : Type} (cache : ContextCache α) (now : Int)
    (config : Option HonchoCursorConfig) : Option α :=
  match cache.userContext with
  | some e => if now - e.fetchedAt < getContextTTL config then some e.data else none
  | none => none

/-- `shouldRefreshKnowledgeGraph()` from pixel.ts. -/
def shouldRefreshKnowledgeGraph {α : Type} (cache : ContextCache α)
    (config : Option HonchoCursorConfig) : Bool :=
  decide (cache.messageCount.getD 0 - cache.lastRefreshMessageCount.getD 0
    ≥ getMessageRefreshThreshold config)

/-- A cache whose TTL check passes while its activity check fails: fetched
just now, with 100 messages since the last refresh against a threshold of
30. -/
def c1cache : ContextCache Nat :=
  { userContext := some { data := 0, fetchedAt := 0 }
    messageCount := some 100
    lastRefreshMessageCount := some 0 }

/-- C1 (counterexample): `getCachedUserContext` returns the cached payload at
a state whose activity-count check fails (100 ≥ 30 messages since last
refresh, so `shouldRefreshKnowledgeGraph` is true), contradicting the claim
that the payload is returned only if both the TTL check and the
activity-count check pass. -/
theorem getCachedUserContext_ignores_activity :
    getCachedUserContext c1cache 0 none = some 0 ∧
    shouldRefreshKnowledgeGraph c1cache none = true ∧
    ¬(c1cache.messageCount.getD 0 - c1cache.lastRefreshMessageCount.getD 0
        < getMessageRefreshThreshold none) :=
  ⟨by decide, by decide, by decide⟩

/-- C1 (amended): `getCachedUserContext` returns the cached payload iff the
entry exists and the TTL check alone (`now - fetchedAt < ttl`) passes; the
activity counters have no effect on it, the activity-count check being
exposed separately through `shouldRefreshKnowledgeGraph`. -/
theorem getCachedUserContext_ttl_only {α : Type} (cache : ContextCache α) (now : Int)
    (config : Option HonchoCursorConfig) :
    ((getCachedUserContext cache now config).isSome ↔
      ∃ e, cache.userContext = some e ∧ now - e.fetchedAt < getContextTTL config) ∧
    (∀ e, cache.userContext = some e → now - e.fetchedAt < getContextTTL config →
      getCachedUserContext cache now config = some e.data) ∧
    (∀ mc lr, getCachedUserContext
        { cache with messageCount := mc, lastRefreshMessageCount := lr } now config
      = getCachedUserContext cache now config) := by
  refine ⟨?_, ?_, ?_⟩
  · unfold getCachedUserContext
    cases hu : cache.userContext with
    | none => simp
    | some e =>
      by_cases hlt : now - e.fetchedAt < getContextTTL config <;> simp [hlt]
  · intro e he hlt
    unfold getCachedUserContext
    rw [he]
    simp [hlt]
  · intro mc lr
    rfl

/-- C8: whenever `messageCount - lastRefreshMessageCount` reaches the
configured threshold (including exact equality), `shouldRefreshKnowledgeGraph`
returns true, whatever cached context entry (TTL-fresh or stale) is
stored. -/
theorem shouldRefreshKnowledgeGraph_at_threshold {α : Type} (cache : ContextCache α)
    (config : Option HonchoCursorConfig)
    (h : getMessageRefreshThreshold config ≤
      cache.messageCount.getD 0 - cache.lastRefreshMessageCount.getD 0) :
    shouldRefreshKnowledgeGraph cache config = true ∧
    ∀ e : Option (CtxEntry α),
      shouldRefreshKnowledgeGraph { cache with userContext := e } config = true := by
  constructor
  · simp only [shouldRefreshKnowledgeGraph, ge_iff_le, decide_eq_true_eq]
    exact h
  · intro e
    simp only [shouldRefreshKnowledgeGraph, ge_iff_le, decide_eq_true_eq]
    exact h

/-- Closed instance of `shouldRefreshKnowledgeGraph_at_threshold` at the
exact-equality boundary (30 messages against the default threshold 30). -/
theorem shouldRefreshKnowledgeGraph_at_threshold_witness :
    shouldRefreshKnowledgeGraph
        ({ messageCount := some 30, lastRefreshMessageCount := some 0 } : ContextCache Nat) none
      = true ∧
    ∀ e : Option (CtxEntry Nat),
      shouldRefreshKnowledgeGraph
          ({ messageCount := some 30, lastRefreshMessageCount := some 0,
             userContext := e } : ContextCache Nat) none = true :=
  shouldRefreshKnowledgeGraph_at_threshold
    ({ messageCount := some 30, lastRefreshMessageCount := some 0 } : ContextCache Nat) none
    (by decide)

/-! ## Message Queue (pixel.ts)

`message-queue.jsonl` is reified line by line: a line is whitespace-only
(`blank`, dropped by the `line.trim()` filter), unparseable (`malformed`),
or one serialized `QueuedMessage`. -/

structure QueuedMessage where
  content : String
  peerId : String
  cwd : String
  timestamp : String
  uploaded : Option Bool := none
  instanceId : Option String := none
deriving DecidableEq

inductive QueueLine
  | blank
  | malformed
  | msg (m : QueuedMessage)
deriving DecidableEq

def isBlankLine : QueueLine → Bool
  | .blank => true
  | _ => false

def isMalformedLine : QueueLine → Bool
  | .malformed => true
  | _ => false

/-- `JSON.parse` of one non-blank line. -/
def lineMsg : QueueLine → Option QueuedMessage
  | .msg m => some m
  | _ => none

/-- `queueMessage(content, peerId, cwd, instanceId)`: appends one record with
`uploaded: false`; the stored instance id is
`instanceId || getClaudeInstanceId() || undefined`. -/
def queueMessage (content peerId cwd : String) (instanceId claudeInstanceId : Option String)
    (timestamp : String) (file : List QueueLine) : List QueueLine :=
  file ++ [.msg
    { content := content
      peerId := peerId
      cwd := cwd
      timestamp := timestamp
      uploaded := some false
      instanceId := jsOr instanceId (jsOr claudeInstanceId none) }]

/-- `getQueuedMessages(forCwd?)`: parses every non-blank line (a single parse
failure makes the whole call return `[]`), keeps records whose `uploaded`
flag is not `true`, and filters by `cwd` when one is given. -/
def getQueuedMessages (forCwd : Option String) (file : List QueueLine) : List QueuedMessage :=
  if (file.filter (fun l => !isBlankLine l)).any isMalformedLine then []
  else
    match forCwd with
    | some c =>
      (((file.filter (fun l => !isBlankLine l)).filterMap lineMsg).filter
        (fun m => !(m.uploaded.getD false))).filter (fun m => m.cwd == c)
    | none =>
      ((file.filter (fun l => !isBlankLine l)).filterMap lineMsg).filter
        (fun m => !(m.uploaded.getD false))

/-- `markMessagesUploaded(forCwd?)`: with no directory the whole log is
cleared; with a directory the log is rewritten keeping only lines that parse
to a record of a different `cwd` (unparseable lines are dropped). -/
def markMessagesUploaded (forCwd : Option String) (file : List QueueLine) : List QueueLine :=
  match forCwd with
  | none => []
  | some c =>
    (file.filter (fun l => !isBlankLine l)).filter (fun l =>
      match lineMsg l with
      | some m => m.cwd != c
      | none => false)

/-- Lines holding a record for working directory `c`. -/
def isMsgFor (c : String) (l : QueueLine) : Bool :=
  match lineMsg l with
  | some m => m.cwd == c
  | none => false

/-- C6: `markMessagesUploaded(A)` removes every record whose `cwd` is `A` and
leaves the records of any other working directory `B` present and unchanged
in the rewritten file. -/
theorem markMessagesUploaded_scoped (file : List QueueLine) (A B : String) (hAB : A ≠ B) :
    (markMessagesUploaded (some A) file).filter (isMsgFor A) = [] ∧
    (markMessagesUploaded (some A) file).filter (isMsgFor B) = file.filter (isMsgFor B) := by
  constructor
  · rw [List.filter_eq_nil_iff]
    intro l hl
    simp only [markMessagesUploaded, List.mem_filter] at hl
    cases l with
    | blank => simp [isMsgFor, lineMsg]
    | malformed => simp [isMsgFor, lineMsg]
    | msg m =>
      have hne : (m.cwd != A) = true := by simpa [lineMsg] using hl.2
      simp only [isMsgFor, lineMsg]
      simpa using hne
  · simp only [markMessagesUploaded]
    rw [List.filter_filter, List.filter_filter]
    apply List.filter_congr
    intro l hl
    cases l with
    | blank => simp [isMsgFor, lineMsg, isBlankLine]
    | malformed => simp [isMsgFor, lineMsg, isBlankLine]
    | msg m =>
      by_cases hcb : m.cwd = B
      · have hba : (m.cwd != A) = true := by simp [hcb, Ne.symm hAB]
        simp only [isMsgFor, lineMsg, isBlankLine, hcb, hba]
        simp [Ne.symm hAB]
      · simp [isMsgFor, lineMsg, isBlankLine, hcb]

/-- A queue holding one record for cwd `"a"` and one for cwd `"b"`. -/
def c6file : List QueueLine :=
  [.msg { content := "x", peerId := "p", cwd := "a", timestamp := "t",
          uploaded := some false, instanceId := none },
   .msg { content := "y", peerId := "p", cwd := "b", timestamp := "t",
          uploaded := some false, instanceId := none }]

/-- Closed instance of `markMessagesUploaded_scoped` at a concrete queue. -/
theorem markMessagesUploaded_scoped_witness :
    (markMessagesUploaded (some "a") c6file).filter (isMsgFor "a") = [] ∧
    (markMessagesUploaded (some "a") c6file).filter (isMsgFor "b")
      = c6file.filter (isMsgFor "b") :=
  markMessagesUploaded_scoped c6file "a" "b" (by decide)

/-- C7: starting from an empty (or absent) queue file, `queueMessage`
followed by `getQueuedMessages` for the same working directory returns
exactly one record, carrying the enqueued `content`, `peerId` and `cwd`,
with its `uploaded` flag false. -/
theorem queueMessage_then_getQueuedMessages (content peerId cwd : String)
    (instanceId claudeInstanceId : Option String) (timestamp : String) :
    getQueuedMessages (some cwd)
        (queueMessage content peerId cwd instanceId claudeInstanceId timestamp []) =
      [{ content := content
         peerId := peerId
         cwd := cwd
         timestamp := timestamp
         uploaded := some false
         instanceId := jsOr instanceId (jsOr claudeInstanceId none) }] := by
  simp [getQueuedMessages, queueMessage, isBlankLine, isMalformedLine, lineMsg]

/-! ## Git State Tracker (pixel.ts) -/

structure GitState where
  branch : String
  commit : String
  commitMessage : String
  isDirty : Bool
  dirtyFiles : List String
  timestamp : String
deriving DecidableEq

inductive GitChangeType
  | branch_switch
  | new_commits
  | files_changed
  | initial
deriving DecidableEq

/-- `GitStateChange`; the source's `from`/`to` fields are spelled `from'`/`to'`
(`from` is reserved). -/
structure GitStateChange where
  type : GitChangeType
  description : String
  from' : Option String := none
  to' : Option String := none
deriving DecidableEq

/-- `detectGitChanges(previous, current)` from pixel.ts. -/
def detectGitChanges (previous : Option GitState) (current : GitState) : List GitStateChange :=
  match previous with
  | none =>
    [{ type := .initial
       description := "Session started on branch '" ++ current.branch ++ "' at "
         ++ current.commit }]
  | some previous =>
    (if previous.branch != current.branch then
      [{ type := .branch_switch
         description := "Branch switched from '" ++ previous.branch ++ "' to '"
           ++ current.branch ++ "'"
         from' := some previous.branch
         to' := some current.branch }]
    else []) ++
    (if previous.commit != current.commit then
      [{ type := .new_commits
         description := "New commit: " ++ current.commit ++ " - " ++ current.commitMessage
         from' := some previous.commit
         to' := some current.commit }]
    else []) ++
    (if !previous.isDirty && current.isDirty then
      [{ type := .files_changed
         description := "Uncommitted changes detected: "
           ++ String.intercalate ", " (current.dirtyFiles.take 5)
           ++ (if 5 < current.dirtyFiles.length then "..." else "") }]
    else [])

/-- C9: with equal branch and commit, a clean-to-dirty transition emits
exactly one `files_changed` change whose description is built from at most
the first 5 dirty files, while the dirty-to-clean transition emits no change
at all. -/
theorem detectGitChanges_dirty_transition :
    (∀ (prev cur : GitState), prev.branch = cur.branch → prev.commit = cur.commit →
      prev.isDirty = false → cur.isDirty = true →
      detectGitChanges (some prev) cur =
        [{ type := .files_changed
           description := "Uncommitted changes detected: "
             ++ String.intercalate ", " (cur.dirtyFiles.take 5)
             ++ (if 5 < cur.dirtyFiles.length then "..." else "") }]) ∧
    (∀ (prev cur : GitState), prev.branch = cur.branch → prev.commit = cur.commit →
      prev.isDirty = true → cur.isDirty = false →
      detectGitChanges (some prev) cur = []) := by
  constructor <;>
    · intro prev cur h1 h2 h3 h4
      simp [detectGitChanges, h1, h2, h3, h4]

end CursorHoncho
